import Mathlib

/-!
Shallow embedding of the pump-panda trading agent core, translated from the
TypeScript sources:

* RecallMemory (the recall/event store): records, query filters,
  relevance sorting, similarity retrieval, cleanup, id generation.
* TradingStrategy: signal generation from a market classification and a
  risk assessment.
* RiskManager: portfolio risk assessment and per-signal validation.
* PumpPandaAgent: the trading-cycle orchestration and the interval-handle
  bookkeeping of its timers.

Numbers are modelled as rationals, timestamps as integers (epoch
milliseconds).  Disk persistence, logging and the derived tag index are
external or derived state and are not modelled; record payloads are
modelled as association lists of JSON-like values.
-/

namespace PumpPanda

/-- JavaScript substring containment: a character-list sub-search used to
model `String.prototype.includes`. `leadsWith sub s` holds when `sub` is a
prefix of `s`. -/
def leadsWith : List Char → List Char → Bool
  | [], _ => true
  | _ :: _, [] => false
  | a :: as, b :: bs => a == b && leadsWith as bs

/-- `hasSub s sub`: `sub` occurs contiguously inside `s`. -/
def hasSub : List Char → List Char → Bool
  | [], sub => sub.isEmpty
  | s@(_ :: t), sub => leadsWith sub s || hasSub t sub

/-- Model of JavaScript `s.includes(sub)`. -/
def jsIncludes (s sub : String) : Bool :=
  hasSub s.toList sub.toList

/-- `Math.abs` on rationals (spelled out so that kernel evaluation works). -/
def ratAbs (q : ℚ) : ℚ :=
  if q < 0 then -q else q

/-- `Math.max` on rationals. -/
def ratMax (a b : ℚ) : ℚ :=
  if a ≤ b then b else a

/-- `Math.min` on rationals. -/
def ratMin (a b : ℚ) : ℚ :=
  if a ≤ b then a else b

/-- Model of JavaScript `Math.round`: round half toward positive infinity. -/
def jsRound (x : ℚ) : ℤ :=
  Rat.floor (x + 1/2)

/-- Record kinds of the recall store (`MemoryRecord.type` in the source). -/
inductive RecordType where
  | cycle
  | trade
  | signal
  | marketEvent
deriving DecidableEq, Repr

/-- JSON-like payload values held in a record's `data` field. -/
inductive Value where
  | num (q : ℚ)
  | str (s : String)
  | bool (b : Bool)
deriving DecidableEq, Repr

/-- A record payload: an association list over field names, modelling a plain
JavaScript object. -/
abbrev Payload := List (String × Value)

/-- `MemoryRecord` from `RecallMemory`. -/
structure MemoryRecord where
  id : String
  timestamp : ℤ
  type : RecordType
  data : Payload
  tags : List String
  importance : ℚ
  accessCount : ℕ
  lastAccessed : ℤ
deriving DecidableEq, Repr

/-- The in-memory store: the `memory` map in insertion order (JavaScript
`Map` preserves insertion order). -/
abbrev MemStore := List MemoryRecord

/-- `RecallQuery` from `RecallMemory`. -/
structure RecallQuery where
  type : Option RecordType := none
  tags : Option (List String) := none
  timeRange : Option (ℤ × ℤ) := none
  importance : Option ℚ := none
  limit : Option ℕ := none

/-- `generateId`: the template string `Date.now() + "-" + randomSuffix`,
with the clock value and the random suffix as oracle inputs. -/
def generateId (nowMs : ℤ) (rand : String) : String :=
  toString nowMs ++ "-" ++ rand

/-- `Map.set` semantics of `this.memory.set(record.id, record)`: replace the
record with the same id in place if present, otherwise append. -/
def mapSet (mem : MemStore) (r : MemoryRecord) : MemStore :=
  if mem.any (fun x => x.id == r.id) then
    mem.map (fun x => if x.id == r.id then r else x)
  else
    mem ++ [r]

/-- `storeRecord` (tag-index maintenance and the periodic disk snapshot are
external/derived and not modelled). -/
def storeRecord (mem : MemStore) (r : MemoryRecord) : MemStore :=
  mapSet mem r

/-- Build the record inserted by `recordCycle`. -/
def recordCycleRec (nowMs : ℤ) (rand : String) (data : Payload) : MemoryRecord :=
  ⟨generateId nowMs rand, nowMs, RecordType.cycle, data,
    ["trading_cycle", "market_analysis"], 7/10, 0, nowMs⟩

/-- `recordCycle`. -/
def recordCycle (mem : MemStore) (nowMs : ℤ) (rand : String) (data : Payload) : MemStore :=
  storeRecord mem (recordCycleRec nowMs rand data)

/-- Build the record inserted by `recordTrade`; the `symbol` and `action`
fields of the trade data become tags. -/
def recordTradeRec (nowMs : ℤ) (rand : String) (data : Payload)
    (symbol action : String) : MemoryRecord :=
  ⟨generateId nowMs rand, nowMs, RecordType.trade, data,
    ["trade_execution", symbol, action], 9/10, 0, nowMs⟩

/-- `recordTrade`. -/
def recordTrade (mem : MemStore) (nowMs : ℤ) (rand : String) (data : Payload)
    (symbol action : String) : MemStore :=
  storeRecord mem (recordTradeRec nowMs rand data symbol action)

/-- Build the record inserted by `recordSignal`. -/
def recordSignalRec (nowMs : ℤ) (rand : String) (data : Payload)
    (symbol strategy : String) : MemoryRecord :=
  ⟨generateId nowMs rand, nowMs, RecordType.signal, data,
    ["trading_signal", symbol, strategy], 4/5, 0, nowMs⟩

/-- `recordSignal`. -/
def recordSignal (mem : MemStore) (nowMs : ℤ) (rand : String) (data : Payload)
    (symbol strategy : String) : MemStore :=
  storeRecord mem (recordSignalRec nowMs rand data symbol strategy)

/-- Build the record inserted by `recordMarketEvent`. -/
def recordMarketEventRec (nowMs : ℤ) (rand : String) (data : Payload)
    (eventType symbol : String) : MemoryRecord :=
  ⟨generateId nowMs rand, nowMs, RecordType.marketEvent, data,
    ["market_event", eventType, symbol], 3/5, 0, nowMs⟩

/-- `recordMarketEvent`. -/
def recordMarketEvent (mem : MemStore) (nowMs : ℤ) (rand : String) (data : Payload)
    (eventType symbol : String) : MemStore :=
  storeRecord mem (recordMarketEventRec nowMs rand data eventType symbol)

/-- `filterByType`. -/
def filterByType (mem : MemStore) (t : RecordType) : MemStore :=
  mem.filter (fun r => r.type == t)

/-- `filterByTags`: keep records sharing at least one tag with the query. -/
def filterByTags (mem : MemStore) (tags : List String) : MemStore :=
  mem.filter (fun r => tags.any (fun tag => r.tags.contains tag))

/-- `filterByTimeRange` (inclusive bounds). -/
def filterByTimeRange (mem : MemStore) (range : ℤ × ℤ) : MemStore :=
  mem.filter (fun r => decide (range.1 ≤ r.timestamp) && decide (r.timestamp ≤ range.2))

/-- `filterByImportance`. -/
def filterByImportance (mem : MemStore) (minImportance : ℚ) : MemStore :=
  mem.filter (fun r => decide (minImportance ≤ r.importance))

/-- The comparator of `sortByRelevance`, returning the sign-relevant
rational the JavaScript comparator computes. -/
def relevanceCmp (a b : MemoryRecord) : ℚ :=
  if ratAbs (a.importance - b.importance) > 1/10 then
    b.importance - a.importance
  else if (b.timestamp - a.timestamp).natAbs > 60000 then
    ((b.timestamp - a.timestamp : ℤ) : ℚ)
  else (b.accessCount : ℚ) - (a.accessCount : ℚ)

/-- `a` may stay before `b` under the relevance comparator (comparator value
at most `0`); ties keep the original order, as a stable sort does. -/
def relLe (a b : MemoryRecord) : Bool :=
  decide (relevanceCmp a b ≤ 0)

/-- Stable insertion into a list: place `a` before the first element it
compares at-most-equal to. -/
def insertLe {α : Type} (le : α → α → Bool) (a : α) : List α → List α
  | [] => [a]
  | b :: l => if le a b then a :: b :: l else b :: insertLe le a l

/-- Stable insertion sort, modelling the (stable) JavaScript `Array.sort`. -/
def sortLe {α : Type} (le : α → α → Bool) : List α → List α
  | [] => []
  | a :: l => insertLe le a (sortLe le l)

/-- `sortByRelevance`. -/
def sortByRelevance (records : List MemoryRecord) : List MemoryRecord :=
  sortLe relLe records

/-- The candidate set of `recall` after all optional filters, in store
order: each present predicate narrows the candidates. An empty `tags`
array is skipped (`query.tags && query.tags.length > 0`). -/
def recallFiltered (mem : MemStore) (q : RecallQuery) : MemStore :=
  let c1 := match q.type with
    | some t => filterByType mem t
    | none => mem
  let c2 := match q.tags with
    | some tags => if tags.length > 0 then filterByTags c1 tags else c1
    | none => c1
  let c3 := match q.timeRange with
    | some range => filterByTimeRange c2 range
    | none => c2
  match q.importance with
  | some minImp => filterByImportance c3 minImp
  | none => c3

/-- The effective limit `query.limit || 100`: JavaScript `||` also replaces
an explicit limit of `0` by the default `100`. -/
def effectiveLimit (q : RecallQuery) : ℕ :=
  match q.limit with
  | some n => if n = 0 then 100 else n
  | none => 100

/-- The access-statistics update applied to every returned record. -/
def touch (nowMs : ℤ) (r : MemoryRecord) : MemoryRecord :=
  { r with accessCount := r.accessCount + 1, lastAccessed := nowMs }

/-- The `recall` operation (named `recallRecords` here because `recall` is
a reserved word in this development's tooling): filter, sort by relevance,
truncate, then update access statistics on the returned records (which are
the store's own objects, so the store sees the same mutation). Returns the
result list and the updated store. -/
def recallRecords (mem : MemStore) (q : RecallQuery) (nowMs : ℤ) :
    List MemoryRecord × MemStore :=
  let result := (sortByRelevance (recallFiltered mem q)).take (effectiveLimit q)
  let resultIds := result.map (fun r => r.id)
  (result.map (touch nowMs),
   mem.map (fun r => if resultIds.contains r.id then touch nowMs r else r))

/-- `calculateSimilarity` per-field score: strict equality scores `1`;
otherwise two numeric values score `1 - |a-b| / max |a| |b|` when the
maximum is positive; everything else contributes `0`. -/
def fieldSimilarity (v1 v2 : Value) : ℚ :=
  if v1 = v2 then 1
  else
    match v1, v2 with
    | Value.num a, Value.num b =>
      let diff := ratAbs (a - b)
      let m := ratMax (ratAbs a) (ratAbs b)
      if m > 0 then 1 - diff / m else 0
    | _, _ => 0

/-- The field names of a payload (`Object.keys`). -/
def payloadKeys (d : Payload) : List String :=
  d.map (fun kv => kv.1)

/-- The keys of `d1` that also occur in `d2`, in `d1` order. -/
def commonKeys (d1 d2 : Payload) : List String :=
  (payloadKeys d1).filter (fun k => (payloadKeys d2).contains k)

/-- `calculateSimilarity`: average per-field similarity over the common
keys; `0` when no field name is shared. -/
def calculateSimilarity (d1 d2 : Payload) : ℚ :=
  let common := commonKeys d1 d2
  if common = [] then 0
  else
    let total := (common.map (fun k =>
      fieldSimilarity ((List.lookup k d1).getD (Value.str ""))
        ((List.lookup k d2).getD (Value.str "")))).sum
    total / (common.length : ℚ)

/-- Comparator order for the similarity sort `(a, b) => b.score - a.score`:
`a` may stay before `b` when `b.score ≤ a.score`. -/
def scoreLe (a b : MemoryRecord × ℚ) : Bool :=
  decide (b.2 - a.2 ≤ 0)

/-- `recallSimilar`: recall up to 100 records of the kind, score each
against the sample, stable-sort by score descending, truncate, and return
the records (zero-score candidates are not filtered out). -/
def recallSimilar (mem : MemStore) (sampleData : Payload) (t : RecordType)
    (limit : ℕ) (nowMs : ℤ) : List MemoryRecord :=
  let records := (recallRecords mem ⟨some t, none, none, none, some 100⟩ nowMs).1
  let scored := records.map (fun r => (r, calculateSimilarity sampleData r.data))
  let sorted := sortLe scoreLe scored
  (sorted.take limit).map (fun x => x.1)

/-- `cleanup`: delete exactly the records that are both older than the
retention cutoff and of importance below `0.5`. The cutoff is derived from
the clock reading and the configured retention period. -/
def cleanup (cutoff : ℤ) (mem : MemStore) : MemStore :=
  mem.filter (fun r => !(decide (r.timestamp < cutoff) && decide (r.importance < 1/2)))

/-- Market trend classification. -/
inductive Trend where
  | bullish
  | bearish
  | neutral
deriving DecidableEq, Repr

/-- Risk levels. -/
inductive RiskLevel where
  | low
  | medium
  | high
deriving DecidableEq, Repr

/-- Trading actions. -/
inductive Action where
  | buy
  | sell
  | hold
deriving DecidableEq, Repr

/-- The sparse technical indicators of a `MarketData` sample. -/
structure Indicators where
  rsi : Option ℚ := none
  macd : Option ℚ := none
  movingAverage : Option ℚ := none
  volatility : Option ℚ := none
deriving DecidableEq, Repr

/-- `MarketData` from `TradingStrategy`. -/
structure MarketData where
  symbol : String
  price : ℚ
  volume : ℚ
  timestamp : ℤ
  indicators : Indicators
deriving DecidableEq, Repr

/-- `MarketAnalysis` from `TradingStrategy`. -/
structure MarketAnalysis where
  symbol : String
  trend : Trend
  strength : ℚ
  confidence : ℚ
  signals : List String
  riskLevel : RiskLevel
deriving DecidableEq, Repr

/-- `TradingSignal` from `TradingStrategy`. -/
structure TradingSignal where
  symbol : String
  action : Action
  quantity : ℤ
  price : ℚ
  strategy : String
  confidence : ℚ
  stopLoss : Option ℚ
  takeProfit : Option ℚ
  timestamp : ℤ
deriving DecidableEq, Repr

/-- The flat configuration values the core consumes
(`ConfigManager` getters). -/
structure TradingConfig where
  maxPositionSize : ℚ
  maxDailyLoss : ℚ
  maxDrawdown : ℚ
  stopLossPercentage : ℚ
  takeProfitPercentage : ℚ
  maxOpenPositions : ℕ
deriving DecidableEq, Repr

/-- The running counters of `RiskManager`. -/
structure RiskState where
  dailyLoss : ℚ
  openPositions : ℕ
deriving DecidableEq, Repr

/-- The portfolio snapshot fields `calculateDrawdown` reads; each field is
optional to model absent JavaScript properties. -/
structure Portfolio where
  initialValue : Option ℚ
  currentValue : Option ℚ
deriving DecidableEq, Repr

/-- `RiskAssessment` from `RiskManager`. -/
structure RiskAssessment where
  isAcceptable : Bool
  riskLevel : RiskLevel
  riskScore : ℤ
  warnings : List String
  maxPositionSize : ℚ
deriving DecidableEq, Repr

/-- `SignalValidation` from `RiskManager`. -/
structure SignalValidation where
  isValid : Bool
  riskScore : ℤ
  warnings : List String
deriving DecidableEq, Repr

/-- JavaScript truthiness of an optional number: absent, `0` and `NaN` are
falsy; `NaN` is not representable in the rational model. -/
def jsTruthy : Option ℚ → Bool
  | none => false
  | some q => !(q == 0)

/-- `calculateDrawdown`: `0` when the portfolio or either value field is
falsy, otherwise the non-negative fractional decline from the initial
value. -/
def calculateDrawdown (portfolio : Option Portfolio) : ℚ :=
  match portfolio with
  | none => 0
  | some p =>
    if !(jsTruthy p.initialValue) || !(jsTruthy p.currentValue) then 0
    else
      let iv := p.initialValue.getD 0
      let cv := p.currentValue.getD 0
      ratMax 0 ((iv - cv) / iv)

/-- `calculateMaxPositionSize`: the stepped de-risking curve over the risk
score. -/
def calculateMaxPositionSize (cfg : TradingConfig) (riskScore : ℤ) : ℚ :=
  if riskScore ≥ 70 then cfg.maxPositionSize * (1/10)
  else if riskScore ≥ 50 then cfg.maxPositionSize * (3/10)
  else if riskScore ≥ 30 then cfg.maxPositionSize * (3/5)
  else cfg.maxPositionSize

/-- `assessRisk`, mirroring the sequential accumulation of the source: four
additive factors, then the threshold mapping to a risk level, acceptability
and the position-size ceiling. -/
def assessRisk (cfg : TradingConfig) (st : RiskState)
    (analyses : List MarketAnalysis) (portfolio : Option Portfolio) : RiskAssessment :=
  let riskScore0 : ℤ := 0
  let warnings0 : List String := []
  let riskScore1 := if st.dailyLoss ≥ cfg.maxDailyLoss then riskScore0 + 50 else riskScore0
  let warnings1 := if st.dailyLoss ≥ cfg.maxDailyLoss then
    warnings0 ++ ["Daily loss limit reached"] else warnings0
  let currentDrawdown := calculateDrawdown portfolio
  let riskScore2 := if currentDrawdown > cfg.maxDrawdown then riskScore1 + 40 else riskScore1
  let warnings2 := if currentDrawdown > cfg.maxDrawdown then
    warnings1 ++ ["Maximum drawdown exceeded"] else warnings1
  let riskScore3 := if st.openPositions ≥ cfg.maxOpenPositions then riskScore2 + 30 else riskScore2
  let warnings3 := if st.openPositions ≥ cfg.maxOpenPositions then
    warnings2 ++ ["Maximum open positions reached"] else warnings2
  let anyHigh := analyses.any (fun a => a.riskLevel == RiskLevel.high)
  let riskScore4 := if anyHigh then riskScore3 + 20 else riskScore3
  let warnings4 := if anyHigh then
    warnings3 ++ ["High market volatility detected"] else warnings3
  let riskLevel := if riskScore4 ≥ 70 then RiskLevel.high
    else if riskScore4 ≥ 30 then RiskLevel.medium
    else RiskLevel.low
  ⟨decide (riskScore4 < 70), riskLevel, riskScore4, warnings4,
    calculateMaxPositionSize cfg riskScore4⟩

/-- `validateSignal`: the independent per-signal point score with its own
threshold of 50. -/
def validateSignal (cfg : TradingConfig) (st : RiskState)
    (signal : TradingSignal) : SignalValidation :=
  let riskScore0 : ℤ := 0
  let warnings0 : List String := []
  let positionValue := (signal.quantity : ℚ) * signal.price
  let riskScore1 := if positionValue > cfg.maxPositionSize then riskScore0 + 30 else riskScore0
  let warnings1 := if positionValue > cfg.maxPositionSize then
    warnings0 ++ ["Position size exceeds maximum allowed"] else warnings0
  let riskScore2 := if signal.confidence < 3/5 then riskScore1 + 20 else riskScore1
  let warnings2 := if signal.confidence < 3/5 then
    warnings1 ++ ["Low confidence signal"] else warnings1
  let missingStops := !(jsTruthy signal.stopLoss) || !(jsTruthy signal.takeProfit)
  let riskScore3 := if missingStops then riskScore2 + 15 else riskScore2
  let warnings3 := if missingStops then
    warnings2 ++ ["Missing stop loss or take profit"] else warnings2
  let riskScore4 := if st.openPositions ≥ cfg.maxOpenPositions then riskScore3 + 25 else riskScore3
  let warnings4 := if st.openPositions ≥ cfg.maxOpenPositions then
    warnings3 ++ ["Maximum open positions reached"] else warnings3
  ⟨decide (riskScore4 < 50), riskScore4, warnings4⟩

/-- The action-selection block of `generateSignalForSymbol`: the mutable
`action`/`confidence` pair, starting at `hold` with the classification's
confidence and reassigned (with the 0.1 boost) by the bullish/bearish
branches. -/
def chooseAction (analysis : MarketAnalysis) : Action × ℚ :=
  if analysis.trend = Trend.bullish ∧
      analysis.signals.any (fun s => jsIncludes s "bullish") then
    (Action.buy, analysis.confidence + 1/10)
  else if analysis.trend = Trend.bearish ∧
      analysis.signals.any (fun s => jsIncludes s "bearish") then
    (Action.sell, analysis.confidence + 1/10)
  else
    (Action.hold, analysis.confidence)

/-- `generateSignalForSymbol`: rejection rules, action selection with the
confidence boost, position sizing and the signed stop-loss/take-profit
bounds. Returns `none` exactly where the source returns `null`. -/
def generateSignalForSymbol (cfg : TradingConfig) (analysis : MarketAnalysis)
    (assessment : RiskAssessment) (nowMs : ℤ) : Option TradingSignal :=
  if analysis.riskLevel = RiskLevel.high ∧ assessment.riskLevel = RiskLevel.high then
    none
  else if analysis.confidence < 2/5 then
    none
  else
    let chosen := chooseAction analysis
    if chosen.1 = Action.hold then none
    else
      let baseQuantity := cfg.maxPositionSize * (1/10)
      let quantity := jsRound (baseQuantity * chosen.2)
      some ⟨analysis.symbol, chosen.1, quantity, 0, "recall_enhanced",
        ratMin (19/20) chosen.2,
        some (if chosen.1 = Action.buy then -cfg.stopLossPercentage
          else cfg.stopLossPercentage),
        some (if chosen.1 = Action.buy then cfg.takeProfitPercentage
          else -cfg.takeProfitPercentage),
        nowMs⟩

/-- Comparator order for the signal sort `(a, b) => b.confidence -
a.confidence`. -/
def confidenceLe (a b : TradingSignal) : Bool :=
  decide (b.confidence - a.confidence ≤ 0)

/-- `generateSignals`: one optional signal per classification, `hold`
signals dropped, the batch stably sorted by confidence descending. -/
def generateSignals (cfg : TradingConfig) (analyses : List MarketAnalysis)
    (assessment : RiskAssessment) (nowMs : ℤ) : List TradingSignal :=
  let collected := analyses.filterMap (fun a =>
    match generateSignalForSymbol cfg a assessment nowMs with
    | some s => if s.action ≠ Action.hold then some s else none
    | none => none)
  sortLe confidenceLe collected

/-- The string a JavaScript payload field contributes when pushed into a
`tags : string[]` array (executions carry string fields; other cases model
JavaScript coercion). -/
def payloadTag (p : Payload) (k : String) : String :=
  match List.lookup k p with
  | some (Value.str s) => s
  | some (Value.num q) => toString q
  | some (Value.bool b) => toString b
  | none => "undefined"

/-- Loop body of `executeTrades`: validate each signal, and for the valid
ones call the execution provider (modelled by `exec`, returning the
execution object recorded as a trade), then record the execution. The
first component counts the `executeTrade` invocations. -/
def executeTradesGo (cfg : TradingConfig) (st : RiskState)
    (exec : TradingSignal → Payload) (nowMs : ℤ) (tradeRands : ℕ → String) :
    List TradingSignal → MemStore → ℕ → ℕ × MemStore
  | [], mem, k => (k, mem)
  | s :: rest, mem, k =>
    if (validateSignal cfg st s).isValid then
      let ex := exec s
      executeTradesGo cfg st exec nowMs tradeRands rest
        (recordTrade mem nowMs (tradeRands k) ex (payloadTag ex "symbol")
          (payloadTag ex "action")) (k + 1)
    else
      executeTradesGo cfg st exec nowMs tradeRands rest mem k

/-- `executeTrades`. -/
def executeTrades (cfg : TradingConfig) (st : RiskState) (mem : MemStore)
    (signals : List TradingSignal) (exec : TradingSignal → Payload)
    (nowMs : ℤ) (tradeRands : ℕ → String) : ℕ × MemStore :=
  executeTradesGo cfg st exec nowMs tradeRands signals mem 0

/-- One trading-cycle tick (`executeTradingCycle`): with the fetched market
samples and the classifications the strategy produced for them (the
analyzer's output enters as a parameter, so every reachable classification
list is covered), assess risk, generate and execute signals when the
assessment is acceptable, and finally record the cycle. An empty sample
batch returns early without recording. Returns the number of
`executeTrade` invocations and the updated store. -/
def executeTradingCycle (cfg : TradingConfig) (st : RiskState)
    (marketData : List MarketData) (analyses : List MarketAnalysis)
    (portfolio : Option Portfolio) (mem : MemStore) (nowMs : ℤ)
    (cycleRand : String) (cycleData : Payload)
    (exec : TradingSignal → Payload) (tradeRands : ℕ → String) : ℕ × MemStore :=
  if marketData.isEmpty then (0, mem)
  else
    let assessment := assessRisk cfg st analyses portfolio
    let signals := if assessment.isAcceptable then
      generateSignals cfg analyses assessment nowMs else []
    let traded := if assessment.isAcceptable ∧ signals ≠ [] then
      executeTrades cfg st mem signals exec nowMs tradeRands else (0, mem)
    (traded.1, recordCycle traded.2 nowMs cycleRand cycleData)

/-- The interval-handle fields of `PumpPandaAgent`. -/
structure AgentTimerState where
  tradingInterval : Option ℕ
  performanceInterval : Option ℕ
deriving DecidableEq, Repr

/-- `startTradingLoop`: stores the freshly created trading-loop interval
handle in `tradingInterval`. -/
def startTradingLoop (st : AgentTimerState) (h : ℕ) : AgentTimerState :=
  { st with tradingInterval := some h }

/-- `startMemeTokenHunting`: when hunting is enabled, stores the freshly
created scan interval handle in `tradingInterval` — the same field the
trading loop uses. -/
def startMemeTokenHunting (st : AgentTimerState) (enabled : Bool) (h : ℕ) :
    AgentTimerState :=
  if enabled then { st with tradingInterval := some h } else st

/-- `startPerformanceMonitoring`. -/
def startPerformanceMonitoring (st : AgentTimerState) (h : ℕ) : AgentTimerState :=
  { st with performanceInterval := some h }

/-- The timer effects of `start`: the trading loop, then meme-token
hunting, then performance monitoring, with fresh handles `h1`, `h2`, `h3`. -/
def startAgentTimers (enabled : Bool) (h1 h2 h3 : ℕ) : AgentTimerState :=
  startPerformanceMonitoring
    (startMemeTokenHunting (startTradingLoop ⟨none, none⟩ h1) enabled h2) h3

/-- The interval handles the agent still references; `shutdown` (and the
self-cancel path of each timer callback) can only clear these. -/
def storedHandles (st : AgentTimerState) : List ℕ :=
  st.tradingInterval.toList ++ st.performanceInterval.toList

/-- `ratAbs` agrees with the absolute value. -/
theorem ratAbs_eq (q : ℚ) : ratAbs q = |q| := by
  unfold ratAbs
  rcases lt_or_ge q 0 with h | h
  · rw [if_pos h, abs_of_neg h]
  · rw [if_neg (not_lt.mpr h), abs_of_nonneg h]

/-- `ratMax` agrees with `max`. -/
theorem ratMax_eq (a b : ℚ) : ratMax a b = max a b := by
  rw [ratMax, max_def]

/-- `ratMin` agrees with `min`. -/
theorem ratMin_eq (a b : ℚ) : ratMin a b = min a b := by
  rw [ratMin, min_def]

/-- `jsRound` is the floor of `x + 1/2`. -/
theorem jsRound_eq (x : ℚ) : jsRound x = ⌊x + 1/2⌋ := by
  rw [jsRound, Rat.floor_def', ← Rat.floor_def]

/-- Membership in a stable insertion. -/
theorem mem_insertLe {α : Type} (le : α → α → Bool) (a x : α) :
    ∀ l : List α, (x ∈ insertLe le a l ↔ x = a ∨ x ∈ l)
  | [] => by simp [insertLe]
  | b :: t => by
    simp only [insertLe]
    by_cases h : le a b = true
    · rw [if_pos h]
      simp only [List.mem_cons]
    · rw [if_neg h]
      simp only [List.mem_cons, mem_insertLe le a x t]
      tauto

/-- Sorting with `sortLe` preserves membership. -/
theorem mem_sortLe {α : Type} (le : α → α → Bool) (x : α) :
    ∀ l : List α, (x ∈ sortLe le l ↔ x ∈ l)
  | [] => Iff.rfl
  | a :: t => by
    simp only [sortLe, mem_insertLe, mem_sortLe le x t, List.mem_cons]

/-- Inserting into a locally sorted list keeps it locally sorted, provided
the order is total. -/
theorem chain'_insertLe {α : Type} (le : α → α → Bool)
    (total : ∀ a b, le a b = true ∨ le b a = true) (a : α) :
    ∀ l : List α, List.Chain' (fun x y => le x y = true) l →
      List.Chain' (fun x y => le x y = true) (insertLe le a l)
  | [], _ => List.chain'_singleton a
  | b :: t, h => by
    simp only [insertLe]
    by_cases hab : le a b = true
    · rw [if_pos hab]
      exact List.chain'_cons.mpr ⟨hab, h⟩
    · rw [if_neg hab]
      have hba : le b a = true := (total a b).resolve_left hab
      have htail : List.Chain' (fun x y => le x y = true) (insertLe le a t) :=
        chain'_insertLe le total a t h.tail
      refine List.chain'_cons'.mpr ⟨?_, htail⟩
      intro y hy
      cases t with
      | nil =>
        simp only [insertLe, List.head?_cons, Option.mem_def, Option.some.injEq] at hy
        exact hy ▸ hba
      | cons c t' =>
        simp only [insertLe] at hy
        by_cases hac : le a c = true
        · simp only [if_pos hac, List.head?_cons, Option.mem_def, Option.some.injEq] at hy
          exact hy ▸ hba
        · simp only [if_neg hac, List.head?_cons, Option.mem_def, Option.some.injEq] at hy
          exact hy ▸ (List.chain'_cons.mp h).1

/-- For a total order, `sortLe` yields a locally sorted list: every
adjacent pair satisfies the order. -/
theorem chain'_sortLe {α : Type} (le : α → α → Bool)
    (total : ∀ a b, le a b = true ∨ le b a = true) :
    ∀ l : List α, List.Chain' (fun x y => le x y = true) (sortLe le l)
  | [] => List.chain'_nil
  | a :: t => chain'_insertLe le total a (sortLe le t) (chain'_sortLe le total t)

/-- When every pair of elements is related, the stable sort is the
identity. -/
theorem sortLe_of_forall_le {α : Type} (le : α → α → Bool) :
    ∀ l : List α, (∀ a ∈ l, ∀ b ∈ l, le a b = true) → sortLe le l = l
  | [], _ => rfl
  | a :: t, h => by
    have ht : sortLe le t = t :=
      sortLe_of_forall_le le t (fun x hx y hy =>
        h x (List.mem_cons_of_mem a hx) y (List.mem_cons_of_mem a hy))
    simp only [sortLe, ht]
    cases t with
    | nil => rfl
    | cons b t' =>
      simp only [insertLe,
        if_pos (h a (List.mem_cons_self a _) b (List.mem_cons_of_mem a (List.mem_cons_self b t')))]

/-- The relevance comparator is antisymmetric in sign. -/
theorem relevanceCmp_antisymm (a b : MemoryRecord) :
    relevanceCmp a b = -relevanceCmp b a := by
  unfold relevanceCmp
  have habs : ratAbs (a.importance - b.importance) = ratAbs (b.importance - a.importance) := by
    rw [ratAbs_eq, ratAbs_eq, abs_sub_comm]
  have hnat : (b.timestamp - a.timestamp).natAbs = (a.timestamp - b.timestamp).natAbs := by
    rw [← Int.natAbs_neg, neg_sub]
  by_cases h1 : ratAbs (a.importance - b.importance) > 1/10
  · rw [if_pos h1, if_pos (habs ▸ h1)]
    ring
  · rw [if_neg h1, if_neg (fun hc => h1 (habs ▸ hc))]
    by_cases h2 : (b.timestamp - a.timestamp).natAbs > 60000
    · rw [if_pos h2, if_pos (hnat ▸ h2)]
      push_cast
      ring
    · rw [if_neg h2, if_neg (fun hc => h2 (hnat ▸ hc))]
      ring

/-- The relevance order is total. -/
theorem relLe_total (a b : MemoryRecord) : relLe a b = true ∨ relLe b a = true := by
  unfold relLe
  rcases le_total (relevanceCmp a b) 0 with h | h
  · exact Or.inl (decide_eq_true h)
  · refine Or.inr (decide_eq_true ?_)
    rw [relevanceCmp_antisymm b a]
    exact neg_nonpos_of_nonneg h

/-- The pairwise ordering rule the specification claims for recall
results: outside the 0.1 importance band the earlier record has the higher
importance; inside it, outside the 60 s band, the earlier record is more
recent; otherwise the earlier record has at least the access count of the
later one. -/
def pairHolds (a b : MemoryRecord) : Bool :=
  if ratAbs (a.importance - b.importance) > 1/10 then
    decide (a.importance > b.importance)
  else if (a.timestamp - b.timestamp).natAbs > 60000 then
    decide (a.timestamp > b.timestamp)
  else
    decide (a.accessCount ≥ b.accessCount)

/-- Adjacent records allowed by the relevance order satisfy the pairwise
rule. -/
theorem relLe_pairHolds {a b : MemoryRecord} (h : relLe a b = true) :
    pairHolds a b = true := by
  unfold relLe relevanceCmp at h
  unfold pairHolds
  by_cases h1 : ratAbs (a.importance - b.importance) > 1/10
  · rw [if_pos h1] at h ⊢
    have hv := of_decide_eq_true h
    have hne : a.importance ≠ b.importance := by
      intro hc
      rw [ratAbs_eq, hc, sub_self, abs_zero] at h1
      norm_num at h1
    exact decide_eq_true (lt_of_le_of_ne (by linarith) (fun hc => hne hc.symm))
  · rw [if_neg h1] at h
    rw [if_neg h1]
    have hnat : (a.timestamp - b.timestamp).natAbs = (b.timestamp - a.timestamp).natAbs := by
      rw [← Int.natAbs_neg, neg_sub]
    by_cases h2 : (b.timestamp - a.timestamp).natAbs > 60000
    · rw [if_pos h2] at h
      rw [if_pos (hnat ▸ h2)]
      have hv : ((b.timestamp - a.timestamp : ℤ) : ℚ) ≤ 0 := of_decide_eq_true h
      have hint : (b.timestamp - a.timestamp : ℤ) ≤ 0 := by exact_mod_cast hv
      refine decide_eq_true ?_
      omega
    · rw [if_neg h2] at h
      rw [if_neg (fun hc => h2 (hnat ▸ hc))]
      have hv := of_decide_eq_true h
      refine decide_eq_true ?_
      have hc : (b.accessCount : ℚ) ≤ (a.accessCount : ℚ) := by linarith
      exact_mod_cast hc

/-- The pairwise rule only looks at importance, timestamp and relative
access counts, so the access-statistics update preserves it. -/
theorem pairHolds_touch (nowMs : ℤ) (a b : MemoryRecord) :
    pairHolds (touch nowMs a) (touch nowMs b) = pairHolds a b := by
  unfold pairHolds touch
  simp only [Nat.add_le_add_iff_right, ge_iff_le]

/-- The unconstrained query (all filter fields absent). -/
def qAll : RecallQuery := ⟨none, none, none, none, none⟩

/-- High-importance record (importance 0.9, old). -/
def recHi : MemoryRecord := ⟨"hi", 0, RecordType.cycle, [], [], 9/10, 0, 0⟩

/-- Low-importance record (importance 0.5, much newer). -/
def recLo : MemoryRecord := ⟨"lo", 999999, RecordType.cycle, [], [], 1/2, 0, 0⟩

/-- Record of importance 0.9 with the older timestamp. -/
def recOlder : MemoryRecord := ⟨"older", 0, RecordType.cycle, [], [], 9/10, 0, 0⟩

/-- Record of importance 0.82 (inside the 0.1 band of 0.9), more than 60 s
newer. -/
def recNewer : MemoryRecord := ⟨"newer", 100000, RecordType.cycle, [], [], 41/50, 0, 0⟩

/-- Counterexample record: importance 0.66, oldest. -/
def cexA : MemoryRecord := ⟨"a", 0, RecordType.cycle, [], [], 33/50, 0, 0⟩

/-- Counterexample record: importance 0.58, middle timestamp. -/
def cexB : MemoryRecord := ⟨"b", 100000, RecordType.cycle, [], [], 29/50, 0, 0⟩

/-- Counterexample record: importance 0.5, newest. -/
def cexC : MemoryRecord := ⟨"c", 200000, RecordType.cycle, [], [], 1/2, 0, 0⟩

/-- C3 (corrected): the claimed ordering rule holds for every pair of
adjacent records of a recall result (and the claim's two-record instances
hold as stated: importance 0.9 precedes 0.5 regardless of timestamps, and
within the 0.1 band with timestamps more than 60 s apart the more recent
record precedes), but not for arbitrary non-adjacent pairs, because the
banded comparator is not transitive. -/
theorem C3_relevance_order_adjacent :
    (∀ (mem : MemStore) (q : RecallQuery) (nowMs : ℤ),
      List.Chain' (fun a b => pairHolds a b = true) ((recallRecords mem q nowMs).1)) ∧
    ((recallRecords [recHi, recLo] qAll 0).1.map (fun r => r.id) = ["hi", "lo"]) ∧
    ((recallRecords [recOlder, recNewer] qAll 0).1.map (fun r => r.id) = ["newer", "older"]) := by
  refine ⟨?_, ?_, ?_⟩
  · intro mem q nowMs
    simp only [recallRecords, sortByRelevance]
    rw [List.chain'_map]
    refine List.Chain'.imp ?_ ((chain'_sortLe relLe relLe_total _).take _)
    intro a b hab
    rw [pairHolds_touch]
    exact relLe_pairHolds hab
  · norm_num [recallRecords, recallFiltered, effectiveLimit, sortByRelevance, sortLe,
      insertLe, relLe, relevanceCmp, ratAbs, qAll, recHi, recLo, touch]
  · norm_num [recallRecords, recallFiltered, effectiveLimit, sortByRelevance, sortLe,
      insertLe, relLe, relevanceCmp, ratAbs, qAll, recOlder, recNewer, touch]

/-- C3 counterexample: on a three-record store the recall result violates
the claimed pairwise ordering — records `a` (importance 0.66) and `b`
(importance 0.58) are within the 0.1 band and more than 60 s apart, yet
the older one precedes the newer one, because the intransitive band
comparator placed `a` first on account of record `c`. -/
theorem C3_pairwise_counterexample :
    ¬ List.Pairwise (fun a b => pairHolds a b = true)
      ((recallRecords [cexA, cexB, cexC] qAll 300000).1) := by
  have hres : (recallRecords [cexA, cexB, cexC] qAll 300000).1 =
      [touch 300000 cexA, touch 300000 cexC, touch 300000 cexB] := by
    norm_num [recallRecords, recallFiltered, effectiveLimit, sortByRelevance, sortLe,
      insertLe, relLe, relevanceCmp, ratAbs, qAll, cexA, cexB, cexC, touch]
  rw [hres]
  intro hp
  have hab := (List.pairwise_cons.mp hp).1 (touch 300000 cexB) (by simp)
  rw [pairHolds_touch] at hab
  norm_num [pairHolds, ratAbs, cexA, cexB] at hab

/-- Every record returned by a recall query is the access-updated version
of a record that survived the query's filters. -/
theorem mem_recallRecords {mem : MemStore} {q : RecallQuery} {nowMs : ℤ}
    {r' : MemoryRecord} (h : r' ∈ (recallRecords mem q nowMs).1) :
    ∃ r ∈ recallFiltered mem q, r' = touch nowMs r := by
  simp only [recallRecords] at h
  obtain ⟨r, hr, rfl⟩ := List.mem_map.mp h
  have hs : r ∈ sortLe relLe (recallFiltered mem q) :=
    List.take_subset _ _ hr
  exact ⟨r, (mem_sortLe relLe r _).mp hs, rfl⟩

/-- With a type-only query the candidate set is exactly the type filter. -/
theorem recallFiltered_type_query (mem : MemStore) (t : RecordType) :
    recallFiltered mem ⟨some t, none, none, none, some 100⟩ = filterByType mem t := rfl

/-- A payload sharing no field name with the sample scores zero. -/
theorem calculateSimilarity_of_no_common (sample d : Payload)
    (h : commonKeys sample d = []) : calculateSimilarity sample d = 0 := by
  unfold calculateSimilarity
  rw [h]
  rfl

/-- C4 (corrected): when no candidate of the requested kind shares any
field name with the sample, every similarity score is zero and
`recallSimilar` returns the first `limit` records of the underlying recall
result unchanged — not the empty list. -/
theorem C4_no_overlap_returns_candidates (mem : MemStore) (sample : Payload)
    (t : RecordType) (limit : ℕ) (nowMs : ℤ)
    (h : ∀ r ∈ mem, r.type = t → commonKeys sample r.data = []) :
    recallSimilar mem sample t limit nowMs =
      ((recallRecords mem ⟨some t, none, none, none, some 100⟩ nowMs).1).take limit := by
  have hzero : ∀ r ∈ (recallRecords mem ⟨some t, none, none, none, some 100⟩ nowMs).1,
      calculateSimilarity sample r.data = 0 := by
    intro r hr
    obtain ⟨r0, hr0, rfl⟩ := mem_recallRecords hr
    rw [recallFiltered_type_query] at hr0
    have hmem := List.mem_filter.mp hr0
    have htype : r0.type = t := by
      have := hmem.2
      simpa using this
    exact calculateSimilarity_of_no_common _ _ (h r0 hmem.1 htype)
  have hall : ∀ x ∈ (recallRecords mem ⟨some t, none, none, none, some 100⟩ nowMs).1.map
        (fun r => (r, calculateSimilarity sample r.data)),
      ∀ y ∈ (recallRecords mem ⟨some t, none, none, none, some 100⟩ nowMs).1.map
        (fun r => (r, calculateSimilarity sample r.data)),
      scoreLe x y = true := by
    intro x hx y hy
    obtain ⟨rx, hrx, rfl⟩ := List.mem_map.mp hx
    obtain ⟨ry, hry, rfl⟩ := List.mem_map.mp hy
    simp [scoreLe, hzero rx hrx, hzero ry hry]
  have hshow : recallSimilar mem sample t limit nowMs =
      ((sortLe scoreLe
        ((recallRecords mem ⟨some t, none, none, none, some 100⟩ nowMs).1.map
          (fun r => (r, calculateSimilarity sample r.data)))).take limit).map
        (fun x => x.1) := rfl
  rw [hshow, sortLe_of_forall_le _ _ hall, ← List.map_take, List.map_map]
  have hid : ((fun x : MemoryRecord × ℚ => x.1) ∘
      (fun r : MemoryRecord => (r, calculateSimilarity sample r.data))) = id := rfl
  rw [hid, List.map_id]

/-- Record whose payload has the single field `x`. -/
def simRec : MemoryRecord := ⟨"s1", 0, RecordType.cycle, [("x", Value.num 1)], [], 7/10, 0, 0⟩

/-- C4 counterexample: a sample whose only field `y` overlaps no field of
the stored record, yet `recallSimilar` returns the record rather than the
empty list. -/
theorem C4_empty_counterexample :
    commonKeys [("y", Value.num 2)] simRec.data = [] ∧
    recallSimilar [simRec] [("y", Value.num 2)] RecordType.cycle 10 5 = [touch 5 simRec] := by
  constructor
  · rfl
  · norm_num [recallSimilar, recallRecords, recallFiltered, effectiveLimit, sortByRelevance,
      sortLe, insertLe, relLe, relevanceCmp, ratAbs, touch, simRec, calculateSimilarity,
      commonKeys, payloadKeys, scoreLe, fieldSimilarity, filterByType]

/-- When an action was chosen, the sizing confidence is the boosted
classification confidence. -/
theorem chooseAction_of_ne_hold {analysis : MarketAnalysis}
    (h : (chooseAction analysis).1 ≠ Action.hold) :
    ((chooseAction analysis).1 = Action.buy ∨ (chooseAction analysis).1 = Action.sell) ∧
    (chooseAction analysis).2 = analysis.confidence + 1/10 := by
  unfold chooseAction at h ⊢
  split_ifs at h ⊢ <;> simp_all

/-- A neutral classification never selects an action. -/
theorem chooseAction_neutral {analysis : MarketAnalysis}
    (h : analysis.trend = Trend.neutral) :
    chooseAction analysis = (Action.hold, analysis.confidence) := by
  unfold chooseAction
  rw [if_neg, if_neg]
  · rintro ⟨hb, -⟩
    rw [h] at hb
    exact Trend.noConfusion hb
  · rintro ⟨hb, -⟩
    rw [h] at hb
    exact Trend.noConfusion hb

/-- C1 (confirmed): whenever `generateSignalForSymbol` passes the
rejection rules and selects a buy or sell action, the emitted signal's
quantity is `round(0.1 × maxPositionSize × confidence)` where the sizing
confidence is the boosted classification confidence
(`analysis.confidence + 0.1`, the value the capped signal confidence is
derived from); with `maxPositionSize = 1000` and sizing confidence `0.8`
this gives 80. -/
theorem C1_position_sizing (cfg : TradingConfig) (analysis : MarketAnalysis)
    (assessment : RiskAssessment) (nowMs : ℤ) (s : TradingSignal)
    (h : generateSignalForSymbol cfg analysis assessment nowMs = some s) :
    (s.action = Action.buy ∨ s.action = Action.sell) ∧
    s.quantity = jsRound (cfg.maxPositionSize * (1/10) * (analysis.confidence + 1/10)) ∧
    s.confidence = ratMin (19/20) (analysis.confidence + 1/10) := by
  simp only [generateSignalForSymbol] at h
  split_ifs at h with h1 h2 h3 h4
  · obtain ⟨hact, hconf⟩ := chooseAction_of_ne_hold h3
    obtain rfl : _ = s := Option.some.inj h
    exact ⟨by simpa using hact, by simp [hconf], by simp [hconf]⟩
  · obtain ⟨hact, hconf⟩ := chooseAction_of_ne_hold h3
    obtain rfl : _ = s := Option.some.inj h
    exact ⟨by simpa using hact, by simp [hconf], by simp [hconf]⟩

/-- Witness configuration: maxPositionSize 1000. -/
def cfgW : TradingConfig := ⟨1000, 100, 1/20, 1/50, 1/25, 5⟩

/-- Witness classification: bullish, confidence 0.7 (boosted to 0.8 on
action selection). -/
def anW : MarketAnalysis := ⟨"BTC", Trend.bullish, 1/2, 7/10, ["macd_bullish"], RiskLevel.low⟩

/-- Witness risk assessment. -/
def asW : RiskAssessment := ⟨true, RiskLevel.low, 0, [], 1000⟩

/-- The signal the witness inputs generate: quantity 80. -/
def sigW : TradingSignal :=
  ⟨"BTC", Action.buy, 80, 0, "recall_enhanced", 4/5, some (-(1/50)), some (1/25), 42⟩

/-- Witness for C1: at `maxPositionSize = 1000` and sizing confidence 0.8
the generated quantity is `round(1000 × 0.1 × 0.8) = 80`. -/
theorem C1_position_sizing_witness :
    ((sigW.action = Action.buy ∨ sigW.action = Action.sell) ∧
      sigW.quantity = jsRound (cfgW.maxPositionSize * (1/10) * (anW.confidence + 1/10)) ∧
      sigW.confidence = ratMin (19/20) (anW.confidence + 1/10)) ∧
    sigW.quantity = 80 := by
  constructor
  · refine C1_position_sizing cfgW anW asW 42 sigW ?_
    norm_num [generateSignalForSymbol, chooseAction, jsRound_eq, ratMin, jsIncludes,
      hasSub, leadsWith, cfgW, anW, asW, sigW]
    norm_num [Int.floor_eq_iff]
    decide
  · rfl

/-- C2 (confirmed): `assessRisk` computes the additive score (+50 daily
loss at/over max, +40 drawdown over max, +30 open positions at/over max,
+20 any high-risk classification), maps it through the 30/70 thresholds,
and accepts exactly below 70; daily loss alone gives 50/medium/acceptable,
adding a drawdown breach gives 90/high/unacceptable. -/
theorem C2_assess_risk_spec (cfg : TradingConfig) (st : RiskState)
    (analyses : List MarketAnalysis) (portfolio : Option Portfolio) :
    (assessRisk cfg st analyses portfolio).riskScore =
      ((if st.dailyLoss ≥ cfg.maxDailyLoss then 50 else 0) +
       (if calculateDrawdown portfolio > cfg.maxDrawdown then 40 else 0) +
       (if st.openPositions ≥ cfg.maxOpenPositions then 30 else 0) +
       (if analyses.any (fun a => a.riskLevel == RiskLevel.high) then 20 else 0) : ℤ) ∧
    (assessRisk cfg st analyses portfolio).riskLevel =
      (if (assessRisk cfg st analyses portfolio).riskScore ≥ 70 then RiskLevel.high
       else if (assessRisk cfg st analyses portfolio).riskScore ≥ 30 then RiskLevel.medium
       else RiskLevel.low) ∧
    (assessRisk cfg st analyses portfolio).isAcceptable =
      decide ((assessRisk cfg st analyses portfolio).riskScore < 70) ∧
    (st.dailyLoss ≥ cfg.maxDailyLoss → ¬ calculateDrawdown portfolio > cfg.maxDrawdown →
      st.openPositions < cfg.maxOpenPositions →
      analyses.any (fun a => a.riskLevel == RiskLevel.high) = false →
      (assessRisk cfg st analyses portfolio).riskScore = 50 ∧
      (assessRisk cfg st analyses portfolio).riskLevel = RiskLevel.medium ∧
      (assessRisk cfg st analyses portfolio).isAcceptable = true) ∧
    (st.dailyLoss ≥ cfg.maxDailyLoss → calculateDrawdown portfolio > cfg.maxDrawdown →
      st.openPositions < cfg.maxOpenPositions →
      analyses.any (fun a => a.riskLevel == RiskLevel.high) = false →
      (assessRisk cfg st analyses portfolio).riskScore = 90 ∧
      (assessRisk cfg st analyses portfolio).riskLevel = RiskLevel.high ∧
      (assessRisk cfg st analyses portfolio).isAcceptable = false) := by
  simp only [assessRisk]
  split_ifs <;> simp_all

/-- Witness for C2: with max daily loss 100 and max drawdown 0.05, a daily
loss of 150 alone scores 50 (medium, acceptable); combined with a 50%
drawdown it scores 90 (high, not acceptable). -/
theorem C2_assess_risk_spec_witness :
    ((assessRisk cfgW ⟨150, 0⟩ [] (some ⟨some 100, some 96⟩)).riskScore = 50 ∧
     (assessRisk cfgW ⟨150, 0⟩ [] (some ⟨some 100, some 96⟩)).riskLevel = RiskLevel.medium ∧
     (assessRisk cfgW ⟨150, 0⟩ [] (some ⟨some 100, some 96⟩)).isAcceptable = true) ∧
    ((assessRisk cfgW ⟨150, 0⟩ [] (some ⟨some 100, some 50⟩)).riskScore = 90 ∧
     (assessRisk cfgW ⟨150, 0⟩ [] (some ⟨some 100, some 50⟩)).riskLevel = RiskLevel.high ∧
     (assessRisk cfgW ⟨150, 0⟩ [] (some ⟨some 100, some 50⟩)).isAcceptable = false) := by
  constructor
  · exact (C2_assess_risk_spec cfgW ⟨150, 0⟩ [] (some ⟨some 100, some 96⟩)).2.2.2.1
      (by norm_num [cfgW])
      (by norm_num [calculateDrawdown, jsTruthy, ratMax, cfgW, beq_iff_eq])
      (by norm_num [cfgW]) rfl
  · exact (C2_assess_risk_spec cfgW ⟨150, 0⟩ [] (some ⟨some 100, some 50⟩)).2.2.2.2
      (by norm_num [cfgW])
      (by norm_num [calculateDrawdown, jsTruthy, ratMax, cfgW, beq_iff_eq])
      (by norm_num [cfgW]) rfl

/-- A neutral classification generates no signal. -/
theorem generateSignalForSymbol_neutral (cfg : TradingConfig)
    {analysis : MarketAnalysis} (assessment : RiskAssessment) (nowMs : ℤ)
    (h : analysis.trend = Trend.neutral) :
    generateSignalForSymbol cfg analysis assessment nowMs = none := by
  simp [generateSignalForSymbol, chooseAction_neutral h]

/-- All-neutral classification batches generate an empty signal batch. -/
theorem generateSignals_neutral (cfg : TradingConfig)
    {analyses : List MarketAnalysis} (assessment : RiskAssessment) (nowMs : ℤ)
    (h : ∀ a ∈ analyses, a.trend = Trend.neutral) :
    generateSignals cfg analyses assessment nowMs = [] := by
  have hcoll : analyses.filterMap (fun a =>
      match generateSignalForSymbol cfg a assessment nowMs with
      | some s => if s.action ≠ Action.hold then some s else none
      | none => none) = [] := by
    rw [List.filterMap_eq_nil_iff]
    intro a ha
    rw [generateSignalForSymbol_neutral cfg assessment nowMs (h a ha)]
  simp only [generateSignals, hcoll]
  rfl

/-- The number of records of a given kind in the store. -/
def countType (mem : MemStore) (t : RecordType) : ℕ :=
  (mem.filter (fun r => r.type == t)).length

/-- Inserting a record whose id is not yet present appends it. -/
theorem mapSet_fresh {mem : MemStore} {r : MemoryRecord}
    (h : r.id ∉ mem.map (fun x => x.id)) : mapSet mem r = mem ++ [r] := by
  unfold mapSet
  rw [if_neg]
  intro hc
  obtain ⟨x, hx, hxe⟩ := List.any_eq_true.mp hc
  exact h (List.mem_map.mpr ⟨x, hx, beq_iff_eq.mp hxe⟩)

/-- C5 (confirmed): a trading-cycle tick that fetched at least one sample
and whose classifications are all neutral never invokes the execution
provider (zero `executeTrade` calls) and its only store effect is the one
cycle record append; when the generated id is fresh the store's cycle
count rises by exactly one. -/
theorem C5_neutral_cycle (cfg : TradingConfig) (st : RiskState)
    (marketData : List MarketData) (analyses : List MarketAnalysis)
    (portfolio : Option Portfolio) (mem : MemStore) (nowMs : ℤ)
    (cycleRand : String) (cycleData : Payload)
    (exec : TradingSignal → Payload) (tradeRands : ℕ → String)
    (hmd : marketData ≠ [])
    (hneu : ∀ a ∈ analyses, a.trend = Trend.neutral) :
    executeTradingCycle cfg st marketData analyses portfolio mem nowMs
      cycleRand cycleData exec tradeRands = (0, recordCycle mem nowMs cycleRand cycleData) ∧
    ((recordCycleRec nowMs cycleRand cycleData).id ∉ mem.map (fun r => r.id) →
      countType (executeTradingCycle cfg st marketData analyses portfolio mem nowMs
        cycleRand cycleData exec tradeRands).2 RecordType.cycle =
      countType mem RecordType.cycle + 1) := by
  have hempty : marketData.isEmpty = false := by
    cases marketData with
    | nil => exact absurd rfl hmd
    | cons a l => rfl
  have hsig : generateSignals cfg analyses (assessRisk cfg st analyses portfolio) nowMs = [] :=
    generateSignals_neutral cfg (assessRisk cfg st analyses portfolio) nowMs hneu
  have h1 : executeTradingCycle cfg st marketData analyses portfolio mem nowMs
      cycleRand cycleData exec tradeRands = (0, recordCycle mem nowMs cycleRand cycleData) := by
    simp [executeTradingCycle, hempty, hsig, ite_self]
  refine ⟨h1, ?_⟩
  intro hfresh
  rw [h1]
  simp only [recordCycle, storeRecord]
  rw [mapSet_fresh hfresh]
  simp [countType, List.filter_append, recordCycleRec]

/-- Witness market sample. -/
def mdW : MarketData := ⟨"BTC", 100, 10, 0, ⟨none, none, none, none⟩⟩

/-- Witness neutral classification. -/
def anNeutralW : MarketAnalysis := ⟨"BTC", Trend.neutral, 1/2, 1/2, [], RiskLevel.low⟩

/-- Witness for C5: one sample, one neutral classification, empty store —
no trade executes and exactly one cycle record is appended. -/
theorem C5_neutral_cycle_witness :
    executeTradingCycle cfgW ⟨0, 0⟩ [mdW] [anNeutralW] none [] 7 "r0" []
      (fun _ => []) (fun _ => "t") = (0, recordCycle [] 7 "r0" []) ∧
    countType (executeTradingCycle cfgW ⟨0, 0⟩ [mdW] [anNeutralW] none [] 7 "r0" []
      (fun _ => []) (fun _ => "t")).2 RecordType.cycle =
      countType ([] : MemStore) RecordType.cycle + 1 := by
  have h := C5_neutral_cycle cfgW ⟨0, 0⟩ [mdW] [anNeutralW] none [] 7 "r0" []
    (fun _ => []) (fun _ => "t") (by simp)
    (by
      intro a ha
      simp only [List.mem_singleton] at ha
      subst ha
      rfl)
  exact ⟨h.1, h.2 (by simp)⟩

/-- C6 (code bug): when meme-token hunting is enabled, `start` stores the
meme-scan interval handle in the same `tradingInterval` field as the
trading loop, so the trading-loop handle (1) is no longer referenced
anywhere and can never be cleared; with hunting disabled the trading-loop
handle is kept. The spec's intended behavior — two independently stored,
distinct handles for the whole running period — does not hold in the
code. -/
theorem C6_timer_handle_clobbered :
    (startAgentTimers true 1 2 3).tradingInterval = some 2 ∧
    1 ∉ storedHandles (startAgentTimers true 1 2 3) ∧
    (startAgentTimers false 1 2 3).tradingInterval = some 1 := by
  refine ⟨rfl, ?_, rfl⟩
  decide

/-- One insertion operation of the recall store, with its clock reading
and random suffix as oracle inputs; `tagA`/`tagB` are the payload fields
the per-kind recorders put into the tag list. -/
structure InsertOp where
  nowMs : ℤ
  rand : String
  kind : RecordType
  data : Payload
  tagA : String
  tagB : String

/-- The record an insertion operation stores. -/
def opRecord (op : InsertOp) : MemoryRecord :=
  match op.kind with
  | RecordType.cycle => recordCycleRec op.nowMs op.rand op.data
  | RecordType.trade => recordTradeRec op.nowMs op.rand op.data op.tagA op.tagB
  | RecordType.signal => recordSignalRec op.nowMs op.rand op.data op.tagA op.tagB
  | RecordType.marketEvent => recordMarketEventRec op.nowMs op.rand op.data op.tagA op.tagB

/-- A sequence of insert operations (`recordCycle`, `recordTrade`,
`recordSignal`, `recordMarketEvent`) applied to the store. -/
def runInserts (mem : MemStore) (ops : List InsertOp) : MemStore :=
  ops.foldl (fun m op => storeRecord m (opRecord op)) mem

/-- C7 counterexample: two inserts whose clock reading and random suffix
coincide produce the same id, and the second silently replaces the first —
the store ends with one record holding the second payload. -/
theorem C7_id_collision_counterexample :
    runInserts [] [⟨1000, "abc", RecordType.cycle, [("k", Value.num 1)], "", ""⟩,
        ⟨1000, "abc", RecordType.cycle, [("k", Value.num 2)], "", ""⟩] =
      [recordCycleRec 1000 "abc" [("k", Value.num 2)]] ∧
    (runInserts [] [⟨1000, "abc", RecordType.cycle, [("k", Value.num 1)], "", ""⟩,
        ⟨1000, "abc", RecordType.cycle, [("k", Value.num 2)], "", ""⟩]).length = 1 := by
  constructor
  · simp [runInserts, storeRecord, mapSet, opRecord, recordCycleRec]
  · simp [runInserts, storeRecord, mapSet, opRecord, recordCycleRec]

/-- C7 (corrected): ids are pairwise distinct — and hence no insert
replaces an existing record — exactly when the `(clock, random-suffix)`
id strings drawn at the inserts are pairwise distinct and fresh for the
store; under that assumption the store grows by appending every inserted
record. -/
theorem C7_distinct_ids_preserve (ops : List InsertOp) :
    ∀ mem : MemStore,
      (mem.map (fun r => r.id) ++ ops.map (fun op => (opRecord op).id)).Nodup →
      runInserts mem ops = mem ++ ops.map opRecord := by
  induction ops with
  | nil =>
    intro mem _
    simp [runInserts]
  | cons op rest ih =>
    intro mem h
    simp only [List.map_cons] at h
    have hd := (List.nodup_append.mp h).2.2
    have hfresh : (opRecord op).id ∉ mem.map (fun r => r.id) := fun hc =>
      hd hc (List.mem_cons_self _ _)
    have hstep : storeRecord mem (opRecord op) = mem ++ [opRecord op] :=
      mapSet_fresh hfresh
    have h' : ((mem ++ [opRecord op]).map (fun r => r.id) ++
        rest.map (fun o => (opRecord o).id)).Nodup := by
      rw [List.map_append, List.append_assoc]
      simpa using h
    have hrun : runInserts mem (op :: rest) = runInserts (mem ++ [opRecord op]) rest := by
      simp [runInserts, hstep]
    rw [hrun, ih _ h']
    simp

/-- Witness for C7: two inserts with distinct oracle draws append both
records. -/
theorem C7_distinct_ids_preserve_witness :
    runInserts [] [⟨1, "a", RecordType.cycle, [], "", ""⟩,
        ⟨2, "b", RecordType.trade, [], "S", "buy"⟩] =
      [] ++ [opRecord ⟨1, "a", RecordType.cycle, [], "", ""⟩,
        opRecord ⟨2, "b", RecordType.trade, [], "S", "buy"⟩] :=
  C7_distinct_ids_preserve
    [⟨1, "a", RecordType.cycle, [], "", ""⟩, ⟨2, "b", RecordType.trade, [], "S", "buy"⟩]
    [] (by decide)

/-- C8 (confirmed): with a fixed clock reading (hence a fixed retention
cutoff), `cleanup` is idempotent — a second run removes no further
records. -/
theorem C8_cleanup_idempotent (cutoff : ℤ) (mem : MemStore) :
    cleanup cutoff (cleanup cutoff mem) = cleanup cutoff mem := by
  simp [cleanup, List.filter_filter]

/-- C9 (confirmed): signal generation reads the risk assessment only
through its `riskLevel` field — assessments agreeing on `riskLevel` yield
identical signal batches, whatever their `maxPositionSize`, `riskScore`,
`warnings` or `isAcceptable`. -/
theorem C9_signals_depend_only_on_riskLevel (cfg : TradingConfig)
    (analyses : List MarketAnalysis) (r1 r2 : RiskAssessment) (nowMs : ℤ)
    (h : r1.riskLevel = r2.riskLevel) :
    generateSignals cfg analyses r1 nowMs = generateSignals cfg analyses r2 nowMs := by
  have hsym : ∀ a, generateSignalForSymbol cfg a r1 nowMs =
      generateSignalForSymbol cfg a r2 nowMs := by
    intro a
    simp only [generateSignalForSymbol, h]
  have hfun : (fun a => match generateSignalForSymbol cfg a r1 nowMs with
      | some s => if s.action ≠ Action.hold then some s else none
      | none => none) =
    (fun a => match generateSignalForSymbol cfg a r2 nowMs with
      | some s => if s.action ≠ Action.hold then some s else none
      | none => none) := by
    funext a
    rw [hsym a]
  simp only [generateSignals, hfun]

/-- Second witness assessment: same risk level as `asW` but different
score, warnings, ceiling and acceptability. -/
def asW2 : RiskAssessment := ⟨false, RiskLevel.low, 69, ["w"], 5⟩

/-- Witness for C9: two assessments differing in everything but
`riskLevel` generate the same batch. -/
theorem C9_signals_depend_only_on_riskLevel_witness :
    generateSignals cfgW [anW] asW 42 = generateSignals cfgW [anW] asW2 42 :=
  C9_signals_depend_only_on_riskLevel cfgW [anW] asW asW2 42 rfl

/-- Configuration with a (pathological but loadable) negative max
drawdown. -/
def cfgNeg : TradingConfig := ⟨1000, 100, -(1/10), 1/50, 1/25, 5⟩

/-- C10 counterexample: with a negative configured max drawdown, a
total-loss portfolio (`currentValue = 0`) computes drawdown 0 and STILL
takes the +40 drawdown breach (0 > maxDrawdown), so the factor is not
unconditionally silent. -/
theorem C10_drawdown_counterexample :
    calculateDrawdown (some ⟨some 100, some 0⟩) = 0 ∧
    (assessRisk cfgNeg ⟨0, 0⟩ [] (some ⟨some 100, some 0⟩)).riskScore = 40 ∧
    (assessRisk cfgNeg ⟨0, 0⟩ [] (some ⟨some 100, some 0⟩)).warnings =
      ["Maximum drawdown exceeded"] := by
  refine ⟨?_, ?_, ?_⟩ <;>
    norm_num [assessRisk, calculateDrawdown, jsTruthy, ratMax,
      calculateMaxPositionSize, cfgNeg, beq_iff_eq]

/-- C10 (corrected): a snapshot with `currentValue = 0`, `initialValue
= 0`, or either field absent computes drawdown 0, and — provided the
configured max drawdown is non-negative — the drawdown factor contributes
no points to the risk score. -/
theorem C10_zero_values_no_drawdown (cfg : TradingConfig) (st : RiskState)
    (analyses : List MarketAnalysis) (q : Portfolio)
    (h : q.currentValue = some 0 ∨ q.currentValue = none ∨
         q.initialValue = some 0 ∨ q.initialValue = none) :
    calculateDrawdown (some q) = 0 ∧
    (0 ≤ cfg.maxDrawdown →
      (assessRisk cfg st analyses (some q)).riskScore =
        ((if st.dailyLoss ≥ cfg.maxDailyLoss then 50 else 0) +
         (if st.openPositions ≥ cfg.maxOpenPositions then 30 else 0) +
         (if analyses.any (fun a => a.riskLevel == RiskLevel.high) then 20 else 0) : ℤ)) := by
  have hdd : calculateDrawdown (some q) = 0 := by
    rcases h with h | h | h | h <;> simp [calculateDrawdown, jsTruthy, h]
  refine ⟨hdd, ?_⟩
  intro hnn
  have hcond : ¬ calculateDrawdown (some q) > cfg.maxDrawdown := by
    rw [hdd]
    exact not_lt.mpr hnn
  simp only [assessRisk]
  split_ifs <;> simp_all

/-- Witness for C10: `currentValue = 0` with the non-negative drawdown
limit 0.05 scores zero. -/
theorem C10_zero_values_no_drawdown_witness :
    calculateDrawdown (some ⟨some 100, some 0⟩) = 0 ∧
    (assessRisk cfgW ⟨0, 0⟩ [] (some ⟨some 100, some 0⟩)).riskScore =
      ((if (0 : ℚ) ≥ cfgW.maxDailyLoss then 50 else 0) +
       (if (0 : ℕ) ≥ cfgW.maxOpenPositions then 30 else 0) +
       (if ([] : List MarketAnalysis).any (fun a => a.riskLevel == RiskLevel.high)
        then 20 else 0) : ℤ) := by
  have h := C10_zero_values_no_drawdown cfgW ⟨0, 0⟩ [] ⟨some 100, some 0⟩ (Or.inl rfl)
  exact ⟨h.1, h.2 (by norm_num [cfgW])⟩

/-- Witness for C4: with one stored record whose only field is `x` and a
sample whose only field is `y`, `recallSimilar` returns the (truncated)
recall result unchanged. -/
theorem C4_no_overlap_returns_candidates_witness :
    recallSimilar [simRec] [("y", Value.num 2)] RecordType.cycle 10 5 =
      ((recallRecords [simRec] ⟨some RecordType.cycle, none, none, none, some 100⟩ 5).1).take 10 :=
  C4_no_overlap_returns_candidates [simRec] [("y", Value.num 2)] RecordType.cycle 10 5
    (by
      intro r hr _
      simp only [List.mem_singleton] at hr
      subst hr
      rfl)
